import Mathlib

/-!
Verification development for the EchoSignRealtime sentence predictor.

The definitions below are a shallow embedding of `src/sentence_predictor.h`
and the sentence-mode fragment of `src/main.cpp`.  Machine integers are
modelled as `Nat` with explicit wrap-around (`% 2^32` for `uint32_t`
timestamps, `% 256` for the `uint8_t` write cursor and vote counters), and
`float` values carried through the arithmetic are modelled as exact
rationals.  The Arduino clock `millis()` is modelled by passing the current
time `now` explicitly to each operation.  The k-nearest-neighbour model
constants (K, N, D, the training table and the scaler parameters) live in
generated headers that are not part of the repository, so the corresponding
definitions are parameterised by them.
-/

/-! ## Configuration constants (sentence_predictor.h lines 13-17) -/

def SENTENCE_WINDOW_DURATION_MS : ℕ := 4000

def SENTENCE_SAMPLE_RATE_HZ : ℕ := 20

def SENTENCE_SAMPLES_PER_WINDOW : ℕ := 80

def SENTENCE_SAMPLE_INTERVAL_MS : ℕ := 1000 / SENTENCE_SAMPLE_RATE_HZ

/-! ## uint32 arithmetic, as used for `millis()` timestamps -/

def U32MOD : ℕ := 4294967296

/-- Truncation of a natural number to `uint32_t`. -/
def u32 (n : ℕ) : ℕ := n % U32MOD

/-- `uint32_t` subtraction `a - b` with wrap-around, as computed by the C
expressions `now - lastSampleTime` and `now - recordingStartTime`. -/
def usub (a b : ℕ) : ℕ := (a + (U32MOD - b % U32MOD)) % U32MOD

/-! ## SensorSample (sentence_predictor.h lines 20-25) -/

structure SensorSample where
  f1 : ℚ
  f2 : ℚ
  f3 : ℚ
  f4 : ℚ
  f5 : ℚ
  gdp : ℚ
  ax : ℚ
  ay : ℚ
  az : ℚ
  gx : ℚ
  gy : ℚ
  gz : ℚ
deriving DecidableEq

def zeroSample : SensorSample := ⟨0, 0, 0, 0, 0, 0, 0, 0, 0, 0, 0, 0⟩

/-! ## SentencePredictor state (sentence_predictor.h lines 27-40) -/

structure SentencePredictor where
  buffer : List SensorSample
  bufferIndex : ℕ
  lastSampleTime : ℕ
  bufferFilled : Bool
  isRecording : Bool
  recordingStartTime : ℕ
deriving DecidableEq

/-- Initial state: the constructor (lines 37-40) zeroes every scalar field,
and the global object `sentencePredictor` (main.cpp line 29) has static
storage duration, so its `buffer` array is zero-initialized as well. -/
def initSP : SentencePredictor :=
  ⟨List.replicate SENTENCE_SAMPLES_PER_WINDOW zeroSample, 0, 0, false, false, 0⟩

/-- `startRecording` (lines 43-49): unconditionally starts a window. -/
def startRecording (now : ℕ) (s : SentencePredictor) : SentencePredictor :=
  { s with isRecording := true
           recordingStartTime := u32 now
           bufferIndex := 0
           bufferFilled := false
           buffer := List.replicate SENTENCE_SAMPLES_PER_WINDOW zeroSample }

/-- `addSample` (lines 73-118).  Returns the `bool` result of the C method
together with the updated object state. -/
def addSample (now : ℕ) (x : SensorSample) (s : SentencePredictor) :
    Bool × SentencePredictor :=
  if s.isRecording = false then (false, s)
  else if usub now s.lastSampleTime < SENTENCE_SAMPLE_INTERVAL_MS then (false, s)
  else
    let s1 : SentencePredictor :=
      { s with buffer := s.buffer.set s.bufferIndex x
               lastSampleTime := u32 now
               bufferIndex := (s.bufferIndex + 1) % 256 }
    if SENTENCE_SAMPLES_PER_WINDOW ≤ s1.bufferIndex then
      (true, { s1 with bufferFilled := true, isRecording := false })
    else if SENTENCE_WINDOW_DURATION_MS ≤ usub now s.recordingStartTime then
      (true, { s1 with bufferFilled := true, isRecording := false })
    else (false, s1)

/-- `reset` (lines 155-159). -/
def reset (s : SentencePredictor) : SentencePredictor :=
  { s with bufferIndex := 0, bufferFilled := false, isRecording := false }

/-- Row-major flattening of the window buffer (lines 132-145). -/
def flattenBuffer (buf : List SensorSample) : List ℚ :=
  (buf.map fun b =>
    [b.f1, b.f2, b.f3, b.f4, b.f5, b.gdp, b.ax, b.ay, b.az, b.gx, b.gy, b.gz]).flatten

/-- `predict` (lines 122-152).  The filled branch standardizes the flattened
features and runs the KNN search against the compiled-in model; both depend
on generated headers absent from the repository, so that branch is
parameterised by an abstract `classify` function taking the flattened
feature vector to a `(label, mean distance)` pair. -/
def predict (classify : List ℚ → ℕ × ℚ) (s : SentencePredictor) : ℕ × ℚ :=
  if s.bufferFilled = false then (0, 999999)
  else classify (flattenBuffer s.buffer)

/-- The guarded start in the controller (main.cpp lines 150-159): on a
button edge the loop calls `startRecording` only when `recording()` is
false. -/
def guardedSentenceStart (now : ℕ) (s : SentencePredictor) : SentencePredictor :=
  if s.isRecording = true then s else startRecording now s

/-! ## Operation sequences over the predictor -/

inductive SPOp where
  | opStart (now : ℕ)
  | opAdd (now : ℕ) (x : SensorSample)
  | opPredict
  | opReset

/-- One public operation on the predictor object.  `predict` (lines
122-152) assigns no member of the object, so it leaves the state as is. -/
def stepOp (s : SentencePredictor) : SPOp → SentencePredictor
  | SPOp.opStart now => startRecording now s
  | SPOp.opAdd now x => (addSample now x s).2
  | SPOp.opPredict => s
  | SPOp.opReset => reset s

/-- State reached from the initial state by a sequence of operations. -/
def run (ops : List SPOp) : SentencePredictor := ops.foldl stepOp initSP

/-- Folding a list of `(timestamp, sample)` calls through `addSample`. -/
def runAdds (calls : List (ℕ × SensorSample)) (s : SentencePredictor) :
    SentencePredictor :=
  calls.foldl (fun t c => (addSample c.1 c.2 t).2) s

/-- Invariant maintained by every operation: the cursor stays within
capacity, an active recording keeps it strictly below capacity, and a
filled buffer is never still recording. -/
def SPInv (s : SentencePredictor) : Prop :=
  s.bufferIndex ≤ SENTENCE_SAMPLES_PER_WINDOW ∧
  (s.isRecording = true → s.bufferIndex < SENTENCE_SAMPLES_PER_WINDOW) ∧
  (s.bufferFilled = true → s.isRecording = false)

/-- Confidence score computed by the controller (main.cpp line 267). -/
def confidence (meanDist : ℚ) : ℚ := 1 / (1 + meanDist)

/-! ## Concrete states used by witnesses and counterexamples -/

def sampleA : SentencePredictor := startRecording 0 initSP

def sampleB : SentencePredictor := (addSample 60 zeroSample sampleA).2

def sampleC : SentencePredictor := (addSample 3990 zeroSample sampleB).2

instance (s : SentencePredictor) : Decidable (SPInv s) :=
  inferInstanceAs (Decidable (s.bufferIndex ≤ SENTENCE_SAMPLES_PER_WINDOW ∧
    (s.isRecording = true → s.bufferIndex < SENTENCE_SAMPLES_PER_WINDOW) ∧
    (s.bufferFilled = true → s.isRecording = false)))

def opsW : List SPOp :=
  [SPOp.opStart 0, SPOp.opAdd 100 zeroSample, SPOp.opAdd 4200 zeroSample]

/-! ## Shared lemmas about the state machine -/

lemma addSample_not_recording (now : ℕ) (x : SensorSample)
    (s : SentencePredictor) (h : s.isRecording = false) :
    addSample now x s = (false, s) := by
  simp [addSample, h]

lemma addSample_dropped (now : ℕ) (x : SensorSample) (s : SentencePredictor)
    (h1 : s.isRecording = true)
    (h2 : usub now s.lastSampleTime < SENTENCE_SAMPLE_INTERVAL_MS) :
    addSample now x s = (false, s) := by
  simp [addSample, h1, h2]

lemma addSample_accepted (now : ℕ) (x : SensorSample) (s : SentencePredictor)
    (h1 : s.isRecording = true)
    (h2 : SENTENCE_SAMPLE_INTERVAL_MS ≤ usub now s.lastSampleTime) :
    addSample now x s =
      (if SENTENCE_SAMPLES_PER_WINDOW ≤ (s.bufferIndex + 1) % 256 ∨
          SENTENCE_WINDOW_DURATION_MS ≤ usub now s.recordingStartTime then
        (true, { s with buffer := s.buffer.set s.bufferIndex x
                        lastSampleTime := u32 now
                        bufferIndex := (s.bufferIndex + 1) % 256
                        bufferFilled := true
                        isRecording := false })
      else
        (false, { s with buffer := s.buffer.set s.bufferIndex x
                         lastSampleTime := u32 now
                         bufferIndex := (s.bufferIndex + 1) % 256 })) := by
  have h2n : ¬ (usub now s.lastSampleTime < SENTENCE_SAMPLE_INTERVAL_MS) := by
    omega
  by_cases h3 : SENTENCE_SAMPLES_PER_WINDOW ≤ (s.bufferIndex + 1) % 256
  · simp [addSample, h1, h2n, h3]
  · by_cases h4 :
        SENTENCE_WINDOW_DURATION_MS ≤ usub now s.recordingStartTime
    · simp [addSample, h1, h2n, h3, h4]
    · simp [addSample, h1, h2n, h3, h4]

lemma addSample_inv_step (now : ℕ) (x : SensorSample) (s : SentencePredictor)
    (h : SPInv s) :
    SPInv (addSample now x s).2 ∧
      (addSample now x s).2.bufferIndex ≤ s.bufferIndex + 1 := by
  obtain ⟨h1, h2, h3⟩ := h
  have hw : SENTENCE_SAMPLES_PER_WINDOW = 80 := rfl
  cases hr : s.isRecording with
  | false =>
      rw [addSample_not_recording now x s hr]
      exact ⟨⟨h1, h2, h3⟩, Nat.le_succ _⟩
  | true =>
      by_cases hlt : usub now s.lastSampleTime < SENTENCE_SAMPLE_INTERVAL_MS
      · rw [addSample_dropped now x s hr hlt]
        exact ⟨⟨h1, h2, h3⟩, Nat.le_succ _⟩
      · rw [addSample_accepted now x s hr (by omega)]
        have hidx : s.bufferIndex < SENTENCE_SAMPLES_PER_WINDOW := h2 hr
        have hmod : (s.bufferIndex + 1) % 256 = s.bufferIndex + 1 := by
          apply Nat.mod_eq_of_lt
          omega
        have hfill : s.bufferFilled = false := by
          cases hf : s.bufferFilled
          · rfl
          · exact absurd (h3 hf) (by simp [hr])
        by_cases hc : SENTENCE_SAMPLES_PER_WINDOW ≤ (s.bufferIndex + 1) % 256 ∨
            SENTENCE_WINDOW_DURATION_MS ≤ usub now s.recordingStartTime
        · rw [if_pos hc]
          refine ⟨⟨?_, ?_, ?_⟩, ?_⟩
          · simp only [SPInv]
            simp [hmod]
            omega
          · simp
          · simp
          · simp [hmod]
        · rw [if_neg hc]
          rw [hmod] at hc
          refine ⟨⟨?_, ?_, ?_⟩, ?_⟩
          · simp [hmod]
            omega
          · simp [hmod, hr]
            omega
          · simp [hfill]
          · simp [hmod]

lemma runAdds_bufferIndex_le (calls : List (ℕ × SensorSample)) :
    ∀ s : SentencePredictor, SPInv s →
      (runAdds calls s).bufferIndex ≤ s.bufferIndex + calls.length := by
  induction calls with
  | nil => intro s _; simp [runAdds]
  | cons c cs ih =>
      intro s hs
      have h := addSample_inv_step c.1 c.2 s hs
      have h2 := ih (addSample c.1 c.2 s).2 h.1
      simp only [runAdds, List.foldl_cons] at h2 ⊢
      simp only [List.length_cons]
      omega

lemma stepOp_inv (s : SentencePredictor) (op : SPOp) (h : SPInv s) :
    SPInv (stepOp s op) := by
  cases op with
  | opStart now =>
      refine ⟨?_, ?_, ?_⟩ <;>
        simp [stepOp, startRecording, SPInv, SENTENCE_SAMPLES_PER_WINDOW]
  | opAdd now x => exact (addSample_inv_step now x s h).1
  | opPredict => exact h
  | opReset =>
      refine ⟨?_, ?_, ?_⟩ <;>
        simp [stepOp, reset, SPInv, SENTENCE_SAMPLES_PER_WINDOW]

lemma run_inv (ops : List SPOp) : SPInv (run ops) := by
  have aux : ∀ (l : List SPOp) (s : SentencePredictor), SPInv s →
      SPInv (l.foldl stepOp s) := by
    intro l
    induction l with
    | nil => intro s hs; exact hs
    | cons op l ih => intro s hs; exact ih _ (stepOp_inv s op hs)
  exact aux ops initSP (by decide)

/-! ## Claim C8 -/

/-- C8: calling `predict` while the buffer is not filled returns sentinel
label 0 with sentinel distance 999999, and leaves the predictor state
unchanged (the method assigns no member). -/
theorem claim_C8_predict_sentinel (classify : List ℚ → ℕ × ℚ)
    (s : SentencePredictor) (h : s.bufferFilled = false) :
    predict classify s = (0, 999999) ∧ stepOp s SPOp.opPredict = s := by
  exact ⟨by simp [predict, h], rfl⟩

theorem claim_C8_witness :
    initSP.bufferFilled = false ∧
      (predict (fun _ => (0, 0)) initSP = (0, 999999) ∧
        stepOp initSP SPOp.opPredict = initSP) :=
  ⟨rfl, claim_C8_predict_sentinel (fun _ => (0, 0)) initSP rfl⟩

/-! ## Claim C9 -/

/-- C9: the confidence score 1/(1+meanDistance) is strictly positive and at
most 1 for nonnegative mean distances, strictly decreasing in the mean
distance, and exactly 1 at mean distance 0. -/
theorem claim_C9_confidence_bounds (d e : ℚ) (hd : 0 ≤ d) (hde : d < e) :
    0 < confidence d ∧ confidence d ≤ 1 ∧
      confidence e < confidence d ∧ confidence 0 = 1 := by
  have h1 : (0 : ℚ) < 1 + d := by linarith
  refine ⟨?_, ?_, ?_, ?_⟩
  · exact div_pos one_pos h1
  · rw [confidence, div_le_one h1]; linarith
  · exact one_div_lt_one_div_of_lt h1 (by linarith)
  · norm_num [confidence]

theorem claim_C9_witness :
    (0 : ℚ) ≤ 1 ∧ (1 : ℚ) < 2 ∧
      (0 < confidence 1 ∧ confidence 1 ≤ 1 ∧
        confidence 2 < confidence 1 ∧ confidence 0 = 1) :=
  ⟨by decide, by decide, claim_C9_confidence_bounds 1 2 (by decide) (by decide)⟩

/-! ## Claim C5 -/

/-- C5 counterexample: `startRecording` itself has no re-entrancy guard.
Calling it on a state that is recording with cursor 1 resets the cursor to
0 and overwrites the start time, contrary to the claim that such a call
leaves the in-progress recording unchanged. -/
theorem claim_C5_counterexample :
    sampleB.isRecording = true ∧ sampleB.bufferIndex = 1 ∧
      (startRecording 200 sampleB).bufferIndex = 0 ∧
      (startRecording 200 sampleB).recordingStartTime ≠
        sampleB.recordingStartTime := by decide

/-- C5 (amended): the re-entrancy defense lives in the controller loop
(main.cpp lines 150-159), which invokes `startRecording` only when
`recording()` is false; the guarded start therefore leaves an in-progress
recording entirely unchanged, while `startRecording` itself always
reinitializes the state. -/
theorem claim_C5_guarded_start (s : SentencePredictor) (now : ℕ)
    (h : s.isRecording = true) : guardedSentenceStart now s = s := by
  simp [guardedSentenceStart, h]

theorem claim_C5_witness :
    sampleB.isRecording = true ∧ guardedSentenceStart 200 sampleB = sampleB :=
  ⟨by decide, claim_C5_guarded_start sampleB 200 (by decide)⟩

/-! ## Claim C10 -/

/-- C10: neither `startRecording` nor `reset` clears `lastSampleTime`, so
the rate limiter spans window boundaries: the first `addSample` of a fresh
recording is dropped whenever it falls within the sample interval of the
last sample accepted before the restart. -/
theorem claim_C10_spacing_across_windows (s : SentencePredictor)
    (now1 now2 : ℕ) (x : SensorSample) :
    (startRecording now1 s).lastSampleTime = s.lastSampleTime ∧
    (reset s).lastSampleTime = s.lastSampleTime ∧
    (usub now2 (startRecording now1 s).lastSampleTime <
        SENTENCE_SAMPLE_INTERVAL_MS →
      addSample now2 x (startRecording now1 s) =
        (false, startRecording now1 s)) := by
  refine ⟨rfl, rfl, ?_⟩
  intro h
  have hrec : (startRecording now1 s).isRecording = true := rfl
  simp [addSample, hrec, h]

theorem claim_C10_witness :
    usub 4030 (startRecording 4020 (reset sampleC)).lastSampleTime <
        SENTENCE_SAMPLE_INTERVAL_MS ∧
      addSample 4030 zeroSample (startRecording 4020 (reset sampleC)) =
        (false, startRecording 4020 (reset sampleC)) :=
  ⟨by decide,
    (claim_C10_spacing_across_windows (reset sampleC) 4020 4030
      zeroSample).2.2 (by decide)⟩

/-! ## Claim C2 -/

/-- C2 counterexample: with a recording in progress whose window duration
has already elapsed (4010 ms since start, duration 4000 ms), an `addSample`
call arriving within the sample interval of the last accepted sample is
dropped by the rate limiter and reports no completion, so completion does
not happen the moment the duration is reached; moreover a completing call
always stores a sample first, so completion with zero accepted samples is
impossible. -/
theorem claim_C2_counterexample :
    sampleC.isRecording = true ∧
      sampleC.bufferIndex < SENTENCE_SAMPLES_PER_WINDOW ∧
      SENTENCE_WINDOW_DURATION_MS ≤ usub 4010 sampleC.recordingStartTime ∧
      (addSample 4010 zeroSample sampleC).1 = false := by decide

/-- C2 (amended): completion is only ever reported by an `addSample` call
that accepts a sample.  Such a call reports completion exactly when the
incremented cursor reaches capacity or the elapsed time since the recording
start has reached the window duration; dropped or non-recording calls never
report completion even after the duration has elapsed, and at any reported
completion the buffer holds at least one accepted sample. -/
theorem claim_C2_completion (s : SentencePredictor) (now : ℕ)
    (x : SensorSample) (h : s.bufferIndex < SENTENCE_SAMPLES_PER_WINDOW) :
    ((addSample now x s).1 = true ↔
      (s.isRecording = true ∧
        SENTENCE_SAMPLE_INTERVAL_MS ≤ usub now s.lastSampleTime ∧
        (SENTENCE_SAMPLES_PER_WINDOW ≤ s.bufferIndex + 1 ∨
          SENTENCE_WINDOW_DURATION_MS ≤ usub now s.recordingStartTime))) ∧
    ((addSample now x s).1 = true →
      1 ≤ (addSample now x s).2.bufferIndex) := by
  have hw : SENTENCE_SAMPLES_PER_WINDOW = 80 := rfl
  have hmod : (s.bufferIndex + 1) % 256 = s.bufferIndex + 1 := by
    apply Nat.mod_eq_of_lt
    omega
  cases hr : s.isRecording with
  | false =>
      rw [addSample_not_recording now x s hr]
      constructor
      · constructor
        · intro hfalse; exact absurd hfalse (by simp)
        · rintro ⟨hrec2, -, -⟩
          exact absurd hrec2 (by simp)
      · simp
  | true =>
      by_cases hlt : usub now s.lastSampleTime < SENTENCE_SAMPLE_INTERVAL_MS
      · rw [addSample_dropped now x s hr hlt]
        constructor
        · constructor
          · intro hfalse; exact absurd hfalse (by simp)
          · rintro ⟨-, hle, -⟩; omega
        · simp
      · rw [addSample_accepted now x s hr (by omega)]
        by_cases hc : SENTENCE_SAMPLES_PER_WINDOW ≤ (s.bufferIndex + 1) % 256 ∨
            SENTENCE_WINDOW_DURATION_MS ≤ usub now s.recordingStartTime
        · rw [if_pos hc]
          rw [hmod] at hc
          constructor
          · constructor
            · intro _
              exact ⟨rfl, by omega, hc⟩
            · intro _; rfl
          · intro _
            simp [hmod]
        · rw [if_neg hc]
          rw [hmod] at hc
          constructor
          · constructor
            · intro hfalse; exact absurd hfalse (by simp)
            · rintro ⟨-, -, hor⟩
              exact absurd hor hc
          · simp

theorem claim_C2_witness :
    sampleC.bufferIndex < SENTENCE_SAMPLES_PER_WINDOW ∧
      (((addSample 4200 zeroSample sampleC).1 = true ↔
        (sampleC.isRecording = true ∧
          SENTENCE_SAMPLE_INTERVAL_MS ≤ usub 4200 sampleC.lastSampleTime ∧
          (SENTENCE_SAMPLES_PER_WINDOW ≤ sampleC.bufferIndex + 1 ∨
            SENTENCE_WINDOW_DURATION_MS ≤
              usub 4200 sampleC.recordingStartTime))) ∧
      ((addSample 4200 zeroSample sampleC).1 = true →
        1 ≤ (addSample 4200 zeroSample sampleC).2.bufferIndex)) :=
  ⟨by decide, claim_C2_completion sampleC 4200 zeroSample (by decide)⟩

/-! ## Claim C6 -/

/-- C6: a call arriving within the sample interval of the last accepted
sample is dropped entirely (state unchanged, result false); a call spaced
at least the interval apart during an active recording advances the cursor
by exactly one; and over any sequence of M calls the cursor advances at
most M times. -/
theorem claim_C6_rate_limit (s : SentencePredictor) :
    (∀ (now : ℕ) (x : SensorSample), s.isRecording = true →
      usub now s.lastSampleTime < SENTENCE_SAMPLE_INTERVAL_MS →
      addSample now x s = (false, s)) ∧
    (∀ (now : ℕ) (x : SensorSample), s.isRecording = true →
      s.bufferIndex < SENTENCE_SAMPLES_PER_WINDOW →
      SENTENCE_SAMPLE_INTERVAL_MS ≤ usub now s.lastSampleTime →
      (addSample now x s).2.bufferIndex = s.bufferIndex + 1) ∧
    (∀ calls : List (ℕ × SensorSample), SPInv s →
      (runAdds calls s).bufferIndex ≤ s.bufferIndex + calls.length) := by
  refine ⟨?_, ?_, ?_⟩
  · intro now x hrec hlt
    exact addSample_dropped now x s hrec hlt
  · intro now x hrec hidx hle
    have hw : SENTENCE_SAMPLES_PER_WINDOW = 80 := rfl
    have hmod : (s.bufferIndex + 1) % 256 = s.bufferIndex + 1 := by
      apply Nat.mod_eq_of_lt
      omega
    rw [addSample_accepted now x s hrec hle]
    by_cases hc : SENTENCE_SAMPLES_PER_WINDOW ≤ (s.bufferIndex + 1) % 256 ∨
        SENTENCE_WINDOW_DURATION_MS ≤ usub now s.recordingStartTime
    · rw [if_pos hc]
      simp [hmod]
    · rw [if_neg hc]
      simp [hmod]
  · intro calls hs
    exact runAdds_bufferIndex_le calls s hs

theorem claim_C6_witness :
    sampleB.isRecording = true ∧
      usub 70 sampleB.lastSampleTime < SENTENCE_SAMPLE_INTERVAL_MS ∧
      addSample 70 zeroSample sampleB = (false, sampleB) ∧
      sampleB.bufferIndex < SENTENCE_SAMPLES_PER_WINDOW ∧
      SENTENCE_SAMPLE_INTERVAL_MS ≤ usub 200 sampleB.lastSampleTime ∧
      (addSample 200 zeroSample sampleB).2.bufferIndex =
        sampleB.bufferIndex + 1 ∧
      SPInv sampleB ∧
      (runAdds [(70, zeroSample)] sampleB).bufferIndex ≤
        sampleB.bufferIndex + 1 :=
  ⟨by decide, by decide,
    (claim_C6_rate_limit sampleB).1 70 zeroSample (by decide) (by decide),
    by decide, by decide,
    (claim_C6_rate_limit sampleB).2.1 200 zeroSample (by decide) (by decide)
      (by decide),
    by decide,
    (claim_C6_rate_limit sampleB).2.2 [(70, zeroSample)] (by decide)⟩

/-! ## Claim C7 -/

/-- C7: in every state reachable by startRecording / addSample / predict /
reset operations, the write cursor never exceeds the capacity, a filled
buffer implies recording is inactive, and while filled every `addSample`
call leaves the state (in particular the buffer contents) unchanged until a
`reset` or `startRecording` intervenes. -/
theorem claim_C7_reachable_invariant (ops : List SPOp) :
    (run ops).bufferIndex ≤ SENTENCE_SAMPLES_PER_WINDOW ∧
    ((run ops).bufferFilled = true → (run ops).isRecording = false) ∧
    ((run ops).bufferFilled = true →
      ∀ (now : ℕ) (x : SensorSample),
        addSample now x (run ops) = (false, run ops)) := by
  obtain ⟨h1, h2, h3⟩ := run_inv ops
  refine ⟨h1, h3, ?_⟩
  intro hf now x
  have hr := h3 hf
  simp [addSample, hr]

theorem claim_C7_witness :
    (run opsW).bufferFilled = true ∧
      (run opsW).isRecording = false ∧
      addSample 9999 zeroSample (run opsW) = (false, run opsW) :=
  ⟨by decide, (claim_C7_reachable_invariant opsW).2.1 (by decide),
    (claim_C7_reachable_invariant opsW).2.2 (by decide) 9999 zeroSample⟩

/-! ## KNN search (sentence_predictor.h lines 163-235)

The per-row Euclidean distances are `sqrtf` of sums of squared
differences; since the selection logic depends only on comparisons between
the per-row distance values and the 1e9 sentinel, the search is stated over
the list of `(distance, label)` pairs produced for rows 0..N-1 in dataset
order, with distances modelled as exact rationals. -/

/-- Squared Euclidean distance accumulated by the loop at lines 183-188. -/
def euclidSqDist (query row : List ℚ) : ℚ :=
  (List.zipWith (fun a b => (a - b) * (a - b)) query row).sum

/-- Comparison by kept distance. -/
def distLE (a b : ℚ × ℕ) : Prop := a.1 ≤ b.1

instance : DecidableRel distLE :=
  fun a b => inferInstanceAs (Decidable (a.1 ≤ b.1))

/-- The 1e9 sentinel distance used to initialize the neighbor arrays
(line 174). -/
def KNN_INIT_DIST : ℚ := 1000000000

/-- Initial `(nearestDist, nearestLabels)` contents (lines 173-176). -/
def knnInit (K : ℕ) : List (ℚ × ℕ) := List.replicate K (KNN_INIT_DIST, 0)

/-- The reverse scan of lines 195-198: starting from `pos = K-1`,
decrement while `pos > 0` and `dist < nearestDist[pos-1]`. -/
def findPos (nd : List (ℚ × ℕ)) (d : ℚ) : ℕ → ℕ
  | 0 => 0
  | p + 1 =>
      if d < (nd.getD p (KNN_INIT_DIST, 0)).1 then findPos nd d p else p + 1

/-- The shift-and-insert of lines 200-207: entries after the insertion
position move one slot right (the last entry is evicted) and the new pair
lands at the insertion position. -/
def knnInsert (K : ℕ) (nd : List (ℚ × ℕ)) (x : ℚ × ℕ) : List (ℚ × ℕ) :=
  List.ofFn fun j : Fin K =>
    if j.1 = findPos nd x.1 (K - 1) then x
    else if findPos nd x.1 (K - 1) < j.1 then nd.getD (j.1 - 1) (KNN_INIT_DIST, 0)
    else nd.getD j.1 (KNN_INIT_DIST, 0)

/-- One iteration of the search loop body for one reference row
(lines 192-208): insert only if strictly closer than the current worst. -/
def knnStep (K : ℕ) (nd : List (ℚ × ℕ)) (x : ℚ × ℕ) : List (ℚ × ℕ) :=
  if x.1 < (nd.getD (K - 1) (KNN_INIT_DIST, 0)).1 then knnInsert K nd x else nd

/-- The full search over all reference rows in dataset order
(lines 179-209). -/
def knnSearch (K : ℕ) (rows : List (ℚ × ℕ)) : List (ℚ × ℕ) :=
  rows.foldl (knnStep K) (knnInit K)

/-- Spec-side definition (stable insertion): place `x` after every entry
whose distance is less than or equal to `x`.  Used to express the "full
sort" the spec compares the kept list against. -/
def sortIns (x : ℚ × ℕ) : List (ℚ × ℕ) → List (ℚ × ℕ)
  | [] => [x]
  | q :: l => if x.1 < q.1 then x :: q :: l else q :: sortIns x l

/-- Spec-side definition: stable full sort of the rows by distance,
obtained by inserting the rows one at a time in dataset order. -/
def naiveFullSort (rows : List (ℚ × ℕ)) : List (ℚ × ℕ) :=
  rows.foldl (fun acc x => sortIns x acc) []

/-- First position whose entry has distance strictly greater than `d`. -/
def insPos (d : ℚ) : List (ℚ × ℕ) → ℕ
  | [] => 0
  | q :: l => if d < q.1 then 0 else insPos d l + 1

example : knnSearch 2 [(3, 1), (1, 2), (2, 3)] = [(1, 2), (2, 3)] := by decide

example : naiveFullSort [(3, 1), (1, 2), (2, 3)] = [(1, 2), (2, 3), (3, 1)] := by
  decide

example : knnSearch 1 [(KNN_INIT_DIST, 7)] = [(KNN_INIT_DIST, 0)] := by decide

example : knnStep 3 [(1, 0), (2, 1), (3, 0)] (3, 5) = [(1, 0), (2, 1), (3, 0)] := by
  decide

example : knnStep 3 [(1, 0), (2, 1), (3, 0)] (2, 7) = [(1, 0), (2, 1), (2, 7)] := by
  decide

/-! ## Lemmas about the spec-side stable insertion -/

lemma distLE_iff (a b : ℚ × ℕ) : distLE a b ↔ a.1 ≤ b.1 := Iff.rfl

lemma sortIns_length (x : ℚ × ℕ) (L : List (ℚ × ℕ)) :
    (sortIns x L).length = L.length + 1 := by
  induction L with
  | nil => rfl
  | cons q l ih =>
      by_cases h : x.1 < q.1
      · simp [sortIns, h]
      · simp [sortIns, h, ih]

lemma sortIns_perm (x : ℚ × ℕ) (L : List (ℚ × ℕ)) :
    List.Perm (sortIns x L) (x :: L) := by
  induction L with
  | nil => exact List.Perm.refl _
  | cons q l ih =>
      by_cases h : x.1 < q.1
      · rw [sortIns, if_pos h]
      · rw [sortIns, if_neg h]
        exact (ih.cons q).trans (List.Perm.swap x q l)

lemma sortIns_sorted (x : ℚ × ℕ) (L : List (ℚ × ℕ))
    (h : List.Sorted distLE L) : List.Sorted distLE (sortIns x L) := by
  induction L with
  | nil => simp [sortIns, List.sorted_singleton]
  | cons q l ih =>
      rw [List.sorted_cons] at h
      obtain ⟨hq, hl⟩ := h
      by_cases hx : x.1 < q.1
      · rw [sortIns, if_pos hx, List.sorted_cons]
        constructor
        · intro b hb
          rcases List.mem_cons.mp hb with rfl | hb2
          · exact le_of_lt hx
          · exact le_trans (le_of_lt hx) (hq b hb2)
        · rw [List.sorted_cons]
          exact ⟨hq, hl⟩
      · rw [sortIns, if_neg hx, List.sorted_cons]
        constructor
        · intro b hb
          rcases List.mem_cons.mp ((sortIns_perm x l).mem_iff.mp hb)
            with rfl | hb3
          · exact le_of_not_lt hx
          · exact hq b hb3
        · exact ih hl

lemma insPos_le_length (d : ℚ) (L : List (ℚ × ℕ)) :
    insPos d L ≤ L.length := by
  induction L with
  | nil => exact Nat.le_refl 0
  | cons q l ih =>
      by_cases h : d < q.1
      · simp [insPos, h]
      · simp only [insPos, if_neg h, List.length_cons]
        omega

lemma sortIns_eq_insert_at (x : ℚ × ℕ) (L : List (ℚ × ℕ)) :
    sortIns x L =
      L.take (insPos x.1 L) ++ x :: L.drop (insPos x.1 L) := by
  induction L with
  | nil => rfl
  | cons q l ih =>
      by_cases h : x.1 < q.1
      · simp [sortIns, insPos, h]
      · rw [sortIns, if_neg h, insPos, if_neg h, List.take_succ_cons,
          List.drop_succ_cons, ih]
        rfl

lemma getD_le_of_lt_insPos (d : ℚ) (L : List (ℚ × ℕ)) :
    ∀ i, i < insPos d L → (L.getD i (KNN_INIT_DIST, 0)).1 ≤ d := by
  induction L with
  | nil => intro i h; simp [insPos] at h
  | cons q l ih =>
      intro i h
      by_cases hq : d < q.1
      · rw [insPos, if_pos hq] at h
        omega
      · rw [insPos, if_neg hq] at h
        cases i with
        | zero => simpa using le_of_not_lt hq
        | succ i =>
            rw [List.getD_cons_succ]
            exact ih i (by omega)

lemma lt_getD_insPos (d : ℚ) (L : List (ℚ × ℕ)) (h : insPos d L < L.length) :
    d < (L.getD (insPos d L) (KNN_INIT_DIST, 0)).1 := by
  induction L with
  | nil => simp at h
  | cons q l ih =>
      by_cases hq : d < q.1
      · simp [insPos, hq]
      · rw [insPos, if_neg hq] at h ⊢
        rw [List.getD_cons_succ]
        exact ih (by simpa using h)

lemma insPos_eq_length (d : ℚ) (L : List (ℚ × ℕ))
    (h : ∀ r ∈ L, r.1 ≤ d) : insPos d L = L.length := by
  induction L with
  | nil => rfl
  | cons q l ih =>
      have hq : ¬ d < q.1 := not_lt.mpr (h q (List.mem_cons_self q l))
      rw [insPos, if_neg hq, List.length_cons,
        ih (fun r hr => h r (List.mem_cons_of_mem q hr))]

lemma sorted_getD_mono (L : List (ℚ × ℕ)) (hs : List.Sorted distLE L)
    {i j : ℕ} (hij : i ≤ j) (hj : j < L.length) :
    (L.getD i (KNN_INIT_DIST, 0)).1 ≤ (L.getD j (KNN_INIT_DIST, 0)).1 := by
  rcases Nat.eq_or_lt_of_le hij with rfl | hlt
  · exact le_refl _
  · have hi : i < L.length := lt_trans hlt hj
    rw [List.getD_eq_getElem L _ hi, List.getD_eq_getElem L _ hj]
    exact List.pairwise_iff_getElem.mp hs i j hi hj hlt

/-! ## The reverse scan finds the stable insertion position -/

lemma findPos_eq_insPos (L : List (ℚ × ℕ)) (d : ℚ)
    (hs : List.Sorted distLE L) :
    ∀ p, insPos d L ≤ p → p < L.length → findPos L d p = insPos d L := by
  intro p
  induction p with
  | zero =>
      intro h1 _
      rw [findPos]
      omega
  | succ p ih =>
      intro h1 h2
      rw [findPos]
      by_cases hc : d < (L.getD p (KNN_INIT_DIST, 0)).1
      · rw [if_pos hc]
        have hip : insPos d L ≤ p := by
          by_contra hnot
          exact absurd hc (not_lt.mpr (getD_le_of_lt_insPos d L p (by omega)))
        exact ih hip (by omega)
      · rw [if_neg hc]
        by_contra hne
        have hip : insPos d L ≤ p := by omega
        have hlt : d < (L.getD (insPos d L) (KNN_INIT_DIST, 0)).1 :=
          lt_getD_insPos d L (by omega)
        have hmono := sorted_getD_mono L hs hip (by omega)
        exact hc (lt_of_lt_of_le hlt hmono)

lemma sortIns_eq_insertIdx (x : ℚ × ℕ) (L : List (ℚ × ℕ)) :
    sortIns x L = L.insertIdx (insPos x.1 L) x := by
  induction L with
  | nil => rfl
  | cons q l ih =>
      by_cases h : x.1 < q.1
      · rw [sortIns, if_pos h, insPos, if_pos h, List.insertIdx_zero]
      · rw [sortIns, if_neg h, insPos, if_neg h, List.insertIdx_succ_cons, ih]

/-! ## One loop iteration equals stable insertion truncated to K -/

lemma knnInsert_eq (K : ℕ) (nd : List (ℚ × ℕ)) (x : ℚ × ℕ)
    (hs : List.Sorted distLE nd) (hlen : nd.length = K) (hK : 0 < K)
    (hd : x.1 < (nd.getD (K - 1) (KNN_INIT_DIST, 0)).1) :
    knnInsert K nd x = (sortIns x nd).take K := by
  have hK1 : K - 1 < nd.length := by omega
  have hip : insPos x.1 nd ≤ K - 1 := by
    by_contra hnot
    exact absurd hd (not_lt.mpr (getD_le_of_lt_insPos x.1 nd (K - 1) (by omega)))
  have hpos : findPos nd x.1 (K - 1) = insPos x.1 nd :=
    findPos_eq_insPos nd x.1 hs (K - 1) hip hK1
  have hple : insPos x.1 nd ≤ nd.length := insPos_le_length x.1 nd
  have hleni : (nd.insertIdx (insPos x.1 nd) x).length = K + 1 := by
    rw [List.length_insertIdx _ _ hple, hlen]
  rw [sortIns_eq_insertIdx]
  apply List.ext_getElem
  · simp [knnInsert, List.length_take, hleni]
  · intro j hj1 hj2
    have hjK : j < K := by
      simpa [knnInsert] using hj1
    simp only [knnInsert, List.getElem_ofFn, hpos, List.getElem_take]
    rcases lt_trichotomy j (insPos x.1 nd) with hlt2 | heq | hgt
    · rw [if_neg (by omega), if_neg (by omega)]
      rw [List.getElem_insertIdx_of_lt nd x _ j hlt2 (by omega)]
      exact List.getD_eq_getElem nd _ (by omega)
    · subst heq
      rw [if_pos rfl]
      rw [List.getElem_insertIdx_self nd x _ hple]
    · rw [if_neg (by omega), if_pos hgt]
      obtain ⟨k, rfl⟩ : ∃ k, j = insPos x.1 nd + k + 1 :=
        ⟨j - insPos x.1 nd - 1, by omega⟩
      rw [List.getElem_insertIdx_add_succ nd x _ k (by omega)]
      have hidx : insPos x.1 nd + k + 1 - 1 = insPos x.1 nd + k := by omega
      rw [hidx, List.getD_eq_getElem nd _ (by omega)]

lemma knnStep_eq_take (K : ℕ) (nd : List (ℚ × ℕ)) (x : ℚ × ℕ)
    (hs : List.Sorted distLE nd) (hlen : nd.length = K) (hK : 0 < K) :
    knnStep K nd x = (sortIns x nd).take K := by
  subst hlen
  rw [knnStep]
  by_cases hd : x.1 < (nd.getD (nd.length - 1) (KNN_INIT_DIST, 0)).1
  · rw [if_pos hd]
    exact knnInsert_eq nd.length nd x hs rfl hK hd
  · rw [if_neg hd]
    have hall : ∀ r ∈ nd, r.1 ≤ x.1 := by
      intro r hr
      obtain ⟨i, hi, rfl⟩ := List.mem_iff_getElem.mp hr
      have h1 := sorted_getD_mono nd hs (Nat.le_sub_one_of_lt hi) (by omega)
      rw [List.getD_eq_getElem nd _ hi] at h1
      exact le_trans h1 (le_of_not_lt hd)
    rw [sortIns_eq_insert_at, insPos_eq_length x.1 nd hall,
      List.take_length, List.drop_length]
    exact (List.take_left' rfl).symm

/-! ## Commuting stable insertion with truncation and padding -/

lemma take_take_succ (A : List (ℚ × ℕ)) (k : ℕ) :
    (A.take (k + 1)).take k = A.take k := by
  rw [List.take_take, Nat.min_eq_left (Nat.le_succ k)]

lemma sortIns_take (x : ℚ × ℕ) :
    ∀ (L : List (ℚ × ℕ)) (K : ℕ),
      (sortIns x (L.take K)).take K = (sortIns x L).take K := by
  intro L
  induction L with
  | nil => intro K; simp
  | cons q l ih =>
      intro K
      cases K with
      | zero => simp
      | succ k =>
          rw [List.take_succ_cons]
          by_cases h : x.1 < q.1
          · rw [sortIns, if_pos h, sortIns, if_pos h, List.take_succ_cons,
              List.take_succ_cons]
            have hq : q :: l.take k = (q :: l).take (k + 1) :=
              (List.take_succ_cons).symm
            rw [hq, take_take_succ]
          · rw [sortIns, if_neg h, sortIns, if_neg h, List.take_succ_cons,
              List.take_succ_cons, ih k]

lemma sortIns_append_big (x : ℚ × ℕ) (S P : List (ℚ × ℕ))
    (h : ∀ p ∈ P, x.1 < p.1) :
    sortIns x (S ++ P) = sortIns x S ++ P := by
  induction S with
  | nil =>
      cases P with
      | nil => rfl
      | cons p ps =>
          have hp := h p (List.mem_cons_self p ps)
          simp [sortIns, hp]
  | cons q s ih =>
      rw [List.cons_append, sortIns, sortIns]
      by_cases hq : x.1 < q.1
      · rw [if_pos hq, if_pos hq]
        rfl
      · rw [if_neg hq, if_neg hq, ih]
        rfl

lemma sorted_replicate_init (K : ℕ) :
    List.Sorted distLE (List.replicate K (KNN_INIT_DIST, 0)) :=
  List.pairwise_replicate.mpr (Or.inr (le_refl _))

/-! ## The spec-side full sort is a sorted permutation of the rows -/

lemma foldl_sortIns_sorted (rows : List (ℚ × ℕ)) :
    ∀ acc, List.Sorted distLE acc →
      List.Sorted distLE (rows.foldl (fun a x => sortIns x a) acc) := by
  induction rows with
  | nil => intro acc h; exact h
  | cons r rs ih =>
      intro acc h
      exact ih _ (sortIns_sorted r acc h)

lemma naiveFullSort_sorted (rows : List (ℚ × ℕ)) :
    List.Sorted distLE (naiveFullSort rows) :=
  foldl_sortIns_sorted rows [] List.sorted_nil

lemma foldl_sortIns_perm (rows : List (ℚ × ℕ)) :
    ∀ acc, List.Perm (rows.foldl (fun a x => sortIns x a) acc) (rows ++ acc) := by
  induction rows with
  | nil => intro acc; simp
  | cons r rs ih =>
      intro acc
      have h1 := ih (sortIns r acc)
      have h2 : List.Perm (rs ++ sortIns r acc) (rs ++ (r :: acc)) :=
        List.Perm.append_left rs (sortIns_perm r acc)
      have h3 : List.Perm (rs ++ (r :: acc)) (r :: (rs ++ acc)) :=
        List.perm_middle
      exact (h1.trans h2).trans h3

lemma naiveFullSort_perm (rows : List (ℚ × ℕ)) :
    List.Perm (naiveFullSort rows) rows := by
  have h := foldl_sortIns_perm rows []
  simpa [naiveFullSort] using h

/-! ## The whole search equals the truncated stable full sort -/

lemma knnSearch_eq_take (K : ℕ) (hK : 0 < K) (rows : List (ℚ × ℕ))
    (hb : ∀ r ∈ rows, r.1 < KNN_INIT_DIST) :
    knnSearch K rows =
      (naiveFullSort rows ++ List.replicate K (KNN_INIT_DIST, 0)).take K := by
  induction rows using List.reverseRecOn with
  | nil => simp [knnSearch, knnInit, naiveFullSort]
  | append_singleton rs x ih =>
      have hb2 : ∀ r ∈ rs, r.1 < KNN_INIT_DIST := fun r hr =>
        hb r (List.mem_append_left _ hr)
      have hbx : x.1 < KNN_INIT_DIST :=
        hb x (List.mem_append_right _ (List.mem_singleton_self x))
      have hsearch : knnSearch K (rs ++ [x]) = knnStep K (knnSearch K rs) x := by
        simp [knnSearch, List.foldl_append]
      have hsort : naiveFullSort (rs ++ [x]) = sortIns x (naiveFullSort rs) := by
        simp [naiveFullSort, List.foldl_append]
      have hsortedS : List.Sorted distLE (naiveFullSort rs) :=
        naiveFullSort_sorted rs
      have hsortedSP : List.Sorted distLE
          (naiveFullSort rs ++ List.replicate K (KNN_INIT_DIST, 0)) := by
        apply List.pairwise_append.mpr
        refine ⟨hsortedS, sorted_replicate_init K, ?_⟩
        intro a ha b hbmem
        have haS : a ∈ rs := (naiveFullSort_perm rs).mem_iff.mp ha
        have hb3 : b = (KNN_INIT_DIST, 0) := List.eq_of_mem_replicate hbmem
        show a.1 ≤ b.1
        rw [hb3]
        exact le_of_lt (hb2 a haS)
      have hL : List.Sorted distLE
          ((naiveFullSort rs ++ List.replicate K (KNN_INIT_DIST, 0)).take K) :=
        List.Pairwise.sublist (List.take_sublist K _) hsortedSP
      have hlenL :
          ((naiveFullSort rs ++ List.replicate K (KNN_INIT_DIST, 0)).take
            K).length = K := by
        simp [List.length_take]
      rw [hsearch, hsort, ih hb2,
        knnStep_eq_take K _ x hL hlenL hK,
        sortIns_take x (naiveFullSort rs ++ List.replicate K (KNN_INIT_DIST, 0)) K,
        sortIns_append_big x (naiveFullSort rs)
          (List.replicate K (KNN_INIT_DIST, 0))
          (fun p hp => by rw [List.eq_of_mem_replicate hp]; exact hbx)]

/-! ## Claim C1 -/

def rowsW : List (ℚ × ℕ) := [(3, 1), (1, 2), (2, 0)]

/-- C1 counterexample: a reference row whose distance equals the 1e9
sentinel used to initialize the neighbor list is never inserted (the guard
is a strict comparison against the sentinel), so the kept pair is the
sentinel `(1e9, label 0)` rather than the actual nearest row, and the kept
list differs from the first K entries of a full sort of the rows. -/
theorem claim_C1_counterexample :
    knnSearch 1 [(KNN_INIT_DIST, 7)] = [(KNN_INIT_DIST, 0)] ∧
    (naiveFullSort [(KNN_INIT_DIST, 7)]).take 1 = [(KNN_INIT_DIST, 7)] ∧
    knnSearch 1 [(KNN_INIT_DIST, 7)] ≠
      (naiveFullSort [(KNN_INIT_DIST, 7)]).take 1 := by
  refine ⟨by decide, by decide, by decide⟩

/-- C1 (amended): provided every reference row's distance is strictly
below the 1e9 sentinel initializer and the dataset has at least K rows,
the K (distance, label) pairs kept by the search are exactly the first K
entries of the stable full sort of all N per-row (distance, label) pairs
(sorted by distance, rows of equal distance kept in dataset order); the
spec-side `naiveFullSort` is shown to be a sorted permutation of the
rows. -/
theorem claim_C1_knn_first_k_of_sort (K : ℕ) (rows : List (ℚ × ℕ))
    (hK : 0 < K) (hN : K ≤ rows.length)
    (hb : ∀ r ∈ rows, r.1 < KNN_INIT_DIST) :
    List.Perm (naiveFullSort rows) rows ∧
    List.Sorted distLE (naiveFullSort rows) ∧
    knnSearch K rows = (naiveFullSort rows).take K := by
  refine ⟨naiveFullSort_perm rows, naiveFullSort_sorted rows, ?_⟩
  rw [knnSearch_eq_take K hK rows hb]
  have hlen : K ≤ (naiveFullSort rows).length := by
    rw [(naiveFullSort_perm rows).length_eq]
    exact hN
  exact List.take_append_of_le_length hlen

theorem claim_C1_witness :
    (0 < 2) ∧ (2 ≤ rowsW.length) ∧ (∀ r ∈ rowsW, r.1 < KNN_INIT_DIST) ∧
    (List.Perm (naiveFullSort rowsW) rowsW ∧
      List.Sorted distLE (naiveFullSort rowsW) ∧
      knnSearch 2 rowsW = (naiveFullSort rowsW).take 2) :=
  ⟨by decide, by decide, by decide,
    claim_C1_knn_first_k_of_sort 2 rowsW (by decide) (by decide) (by decide)⟩

/-! ## Claim C4 -/

def nd0 : List (ℚ × ℕ) := [(1, 0), (2, 1), (3, 0)]

def xEq : ℚ × ℕ := (3, 5)

def xIns : ℚ × ℕ := (2, 7)

/-- C4: with the kept list sorted and of length K, a candidate row is
inserted exactly when its distance is strictly less than the current K-th
(worst) kept distance; a candidate whose distance equals the K-th distance
is discarded, leaving the state unchanged, and an accepted candidate is
placed at its sorted position after all equal-distance entries (the net
effect of the reverse scan with right shift), evicting the current worst
entry (truncation back to K). -/
theorem claim_C4_insertion_policy (K : ℕ) (nd : List (ℚ × ℕ)) (x : ℚ × ℕ)
    (hs : List.Sorted distLE nd) (hlen : nd.length = K) (hK : 0 < K) :
    ((nd.getD (K - 1) (KNN_INIT_DIST, 0)).1 ≤ x.1 → knnStep K nd x = nd) ∧
    (x.1 < (nd.getD (K - 1) (KNN_INIT_DIST, 0)).1 →
      knnStep K nd x = (sortIns x nd).take K) := by
  constructor
  · intro hle
    rw [knnStep, if_neg (not_lt.mpr hle)]
  · intro hlt
    rw [knnStep, if_pos hlt]
    exact knnInsert_eq K nd x hs hlen hK hlt

theorem claim_C4_witness :
    List.Sorted distLE nd0 ∧ nd0.length = 3 ∧ (0 < 3) ∧
    (nd0.getD (3 - 1) (KNN_INIT_DIST, 0)).1 ≤ xEq.1 ∧
    knnStep 3 nd0 xEq = nd0 ∧
    xIns.1 < (nd0.getD (3 - 1) (KNN_INIT_DIST, 0)).1 ∧
    knnStep 3 nd0 xIns = (sortIns xIns nd0).take 3 :=
  ⟨by decide, by decide, by decide, by decide,
    (claim_C4_insertion_policy 3 nd0 xEq (by decide) (by decide)
      (by decide)).1 (by decide),
    by decide,
    (claim_C4_insertion_policy 3 nd0 xIns (by decide) (by decide)
      (by decide)).2 (by decide)⟩

/-! ## Majority vote (sentence_predictor.h lines 211-225) -/

/-- Vote counting (lines 212-215): one `uint8_t` cell per class, each kept
label increments its cell (wrapping at 256 as a `uint8_t` does). -/
def countVotes (numClasses : ℕ) (labels : List ℕ) : List ℕ :=
  labels.foldl (fun v l => v.set l ((v.getD l 0 + 1) % 256))
    (List.replicate numClasses 0)

/-- The argmax scan of lines 217-225 with the loop bound made explicit:
`bestLabel`/`maxVotes` start at `(0, 0)` and are replaced whenever a
strictly larger vote count appears while scanning class indices upward. -/
def bvFold (votes : List ℕ) (n : ℕ) : ℕ × ℕ :=
  (List.range n).foldl
    (fun bm i => if bm.2 < votes.getD i 0 then (i, votes.getD i 0) else bm)
    (0, 0)

/-- `(bestLabel, maxVotes)` after the scan over all classes. -/
def bestVote (votes : List ℕ) : ℕ × ℕ := bvFold votes votes.length

lemma getD_set_self_nat (v : List ℕ) (l a : ℕ) (h : l < v.length) :
    (v.set l a).getD l 0 = a := by
  rw [List.getD_eq_getElem _ _ (by simpa using h)]
  simp

lemma getD_set_ne_nat (v : List ℕ) (l a j : ℕ) (hne : l ≠ j) :
    (v.set l a).getD j 0 = v.getD j 0 := by
  by_cases hj : j < v.length
  · rw [List.getD_eq_getElem _ _ (by simpa using hj),
      List.getD_eq_getElem _ _ hj]
    exact List.getElem_set_ne hne (by simpa using hj)
  · rw [List.getD_eq_default _ _ (by simpa using not_lt.mp hj),
      List.getD_eq_default _ _ (not_lt.mp hj)]

lemma countVotes_aux_length (ls : List ℕ) :
    ∀ v : List ℕ,
      (ls.foldl (fun v l => v.set l ((v.getD l 0 + 1) % 256)) v).length =
        v.length := by
  induction ls with
  | nil => intro v; rfl
  | cons l ls ih =>
      intro v
      rw [List.foldl_cons, ih]
      simp

lemma countVotes_length (numClasses : ℕ) (labels : List ℕ) :
    (countVotes numClasses labels).length = numClasses := by
  rw [countVotes, countVotes_aux_length]
  simp

lemma countVotes_aux_getD (ls : List ℕ) :
    ∀ (v : List ℕ) (j : ℕ), j < v.length → (∀ l ∈ ls, l < v.length) →
      v.getD j 0 < 256 →
      (ls.foldl (fun v l => v.set l ((v.getD l 0 + 1) % 256)) v).getD j 0 =
        (v.getD j 0 + ls.count j) % 256 := by
  induction ls with
  | nil =>
      intro v j hj _ hlt
      rw [List.foldl_nil, List.count_nil, Nat.add_zero, Nat.mod_eq_of_lt hlt]
  | cons l ls ih =>
      intro v j hj hls hlt
      rw [List.foldl_cons]
      have hlv : l < v.length := hls l (List.mem_cons_self l ls)
      have hlen2 : (v.set l ((v.getD l 0 + 1) % 256)).length = v.length := by
        simp
      by_cases hjl : l = j
      · subst hjl
        rw [ih _ l (by omega) (fun a ha => by
            rw [hlen2]; exact hls a (List.mem_cons_of_mem l ha))
          (by rw [getD_set_self_nat v l _ hlv]; exact Nat.mod_lt _ (by omega))]
        rw [getD_set_self_nat v l _ hlv]
        rw [Nat.mod_add_mod]
        have hcc : List.count l (l :: ls) = List.count l ls + 1 := by
          rw [List.count_cons]
          simp
        rw [hcc]
        have : v.getD l 0 + 1 + List.count l ls =
            v.getD l 0 + (List.count l ls + 1) := by omega
        rw [this]
      · rw [ih _ j (by omega) (fun a ha => by
            rw [hlen2]; exact hls a (List.mem_cons_of_mem l ha))
          (by rw [getD_set_ne_nat v l _ j hjl]; exact hlt)]
        rw [getD_set_ne_nat v l _ j hjl]
        have hcc : List.count j (l :: ls) = List.count j ls := by
          rw [List.count_cons]
          simp [hjl]
        rw [hcc]

lemma countVotes_getD (numClasses : ℕ) (labels : List ℕ) (j : ℕ)
    (hj : j < numClasses) (hl : ∀ l ∈ labels, l < numClasses) :
    (countVotes numClasses labels).getD j 0 = labels.count j % 256 := by
  rw [countVotes]
  rw [countVotes_aux_getD labels (List.replicate numClasses 0) j
    (by simpa using hj) (fun a ha => by simpa using hl a ha)
    (by rw [List.getD_eq_getElem _ _ (by simpa using hj)]; simp)]
  rw [List.getD_eq_getElem _ _ (by simpa using hj)]
  simp

lemma bvFold_succ (v : List ℕ) (n : ℕ) :
    bvFold v (n + 1) =
      if (bvFold v n).2 < v.getD n 0 then (n, v.getD n 0) else bvFold v n := by
  unfold bvFold
  rw [List.range_succ, List.foldl_append]
  rfl

lemma bvFold_spec (v : List ℕ) :
    ∀ n, n ≤ v.length →
      (∀ j, j < n → v.getD j 0 ≤ (bvFold v n).2) ∧
      (∀ j, j < (bvFold v n).1 → v.getD j 0 < (bvFold v n).2) ∧
      (v.getD (bvFold v n).1 0 = (bvFold v n).2 ∨
        (n = 0 ∧ bvFold v n = (0, 0))) ∧
      ((bvFold v n).1 = 0 ∨ (bvFold v n).1 < n) := by
  intro n
  induction n with
  | zero =>
      intro _
      refine ⟨?_, ?_, Or.inr ⟨rfl, rfl⟩, Or.inl rfl⟩
      · intro j hj
        exact absurd hj (Nat.not_lt_zero j)
      · intro j hj
        exact absurd hj (Nat.not_lt_zero j)
  | succ n ih =>
      intro hn
      obtain ⟨ih1, ih2, ih3, ih4⟩ := ih (by omega)
      rw [bvFold_succ]
      by_cases hc : (bvFold v n).2 < v.getD n 0
      · rw [if_pos hc]
        refine ⟨?_, ?_, Or.inl rfl, Or.inr (Nat.lt_succ_self n)⟩
        · intro j hj
          rcases Nat.lt_succ_iff_lt_or_eq.mp hj with h | rfl
          · exact le_trans (ih1 j h) (le_of_lt hc)
          · exact le_refl _
        · intro j hj
          exact lt_of_le_of_lt (ih1 j hj) hc
      · rw [if_neg hc]
        refine ⟨?_, ih2, ?_, ?_⟩
        · intro j hj
          rcases Nat.lt_succ_iff_lt_or_eq.mp hj with h | rfl
          · exact ih1 j h
          · exact le_of_not_lt hc
        · rcases ih3 with h | ⟨hn0, hbv⟩
          · exact Or.inl h
          · left
            subst hn0
            rw [hbv] at hc ⊢
            have : v.getD 0 0 ≤ 0 := le_of_not_lt hc
            simpa using this
        · rcases ih4 with h | h
          · exact Or.inl h
          · exact Or.inr (by omega)

/-! ## Claim C3 -/

def labelsW : List ℕ := [2, 2, 1, 1, 0]

/-- C3: for any multiset of K neighbor labels (each a valid class index,
with K at most 255 so the `uint8_t` vote cells cannot wrap), the label
returned by the vote scan is a valid class with the maximum vote count,
and every class of smaller index has strictly fewer votes — so ties in the
maximum resolve to the lowest tied class index. -/
theorem claim_C3_majority_vote (numClasses K : ℕ) (labels : List ℕ)
    (hlen : labels.length = K) (hK : K ≤ 255)
    (hl : ∀ l ∈ labels, l < numClasses) (hC : 0 < numClasses) :
    (bestVote (countVotes numClasses labels)).1 < numClasses ∧
    (∀ j, j < numClasses →
      labels.count j ≤
        labels.count (bestVote (countVotes numClasses labels)).1) ∧
    (∀ j, j < (bestVote (countVotes numClasses labels)).1 →
      labels.count j <
        labels.count (bestVote (countVotes numClasses labels)).1) := by
  have hvlen : (countVotes numClasses labels).length = numClasses :=
    countVotes_length numClasses labels
  have hcnt : ∀ j, j < numClasses →
      (countVotes numClasses labels).getD j 0 = labels.count j := by
    intro j hj
    rw [countVotes_getD numClasses labels j hj hl]
    apply Nat.mod_eq_of_lt
    have := List.count_le_length j labels
    omega
  simp only [bestVote, hvlen]
  obtain ⟨s1, s2, s3, s4⟩ :=
    bvFold_spec (countVotes numClasses labels) numClasses (by omega)
  have hbC : (bvFold (countVotes numClasses labels) numClasses).1 <
      numClasses := by
    rcases s4 with h | h
    · omega
    · exact h
  have hm : (countVotes numClasses labels).getD
      (bvFold (countVotes numClasses labels) numClasses).1 0 =
      (bvFold (countVotes numClasses labels) numClasses).2 := by
    rcases s3 with h | ⟨h0, _⟩
    · exact h
    · omega
  have hbest : (bvFold (countVotes numClasses labels) numClasses).2 =
      labels.count (bvFold (countVotes numClasses labels) numClasses).1 := by
    rw [← hm, hcnt _ hbC]
  refine ⟨hbC, ?_, ?_⟩
  · intro j hj
    have h1 := s1 j hj
    rw [hcnt j hj, hbest] at h1
    exact h1
  · intro j hj
    have h2 := s2 j hj
    have hjC : j < numClasses := by omega
    rw [hcnt j hjC, hbest] at h2
    exact h2

theorem claim_C3_witness :
    labelsW.length = 5 ∧ (5 ≤ 255) ∧ (∀ l ∈ labelsW, l < 3) ∧ (0 < 3) ∧
    (bestVote (countVotes 3 labelsW)).1 = 1 ∧
    ((bestVote (countVotes 3 labelsW)).1 < 3 ∧
      (∀ j, j < 3 →
        labelsW.count j ≤ labelsW.count (bestVote (countVotes 3 labelsW)).1) ∧
      (∀ j, j < (bestVote (countVotes 3 labelsW)).1 →
        labelsW.count j <
          labelsW.count (bestVote (countVotes 3 labelsW)).1)) :=
  ⟨by decide, by decide, by decide, by decide, by decide,
    claim_C3_majority_vote 3 5 labelsW (by decide) (by decide) (by decide)
      (by decide)⟩
